import Mathlib

/-
Verification of the node typings-installer worker
(src/src/typingsInstaller/nodeTypingsInstaller.ts).

The TypeScript source is shallowly embedded: paths are lists of components,
the file system and the external package manager are parameters (oracles),
stateful objects are explicit state-passing functions, and the side effects
of logging and command execution are returned as explicit lists.
-/

namespace NodeTypingsInstaller

/-- A file-system path, as its list of components from the root.
The empty list plays the role of the empty/root path string. -/
abbrev Path := List String

/-- A string-keyed property bag (MapLike of string in the source). -/
abbrev PropertyBag := List (String × String)

/-- The types-registry mapping: package name to property bag
(Map of MapLike of string in the source). -/
abbrev Entries := List (String × PropertyBag)

/-! ## Logger: class FileLog (source lines 12-29) -/

/-- State of the FileLog: the log-file path, `none` when logging is disabled
(either never configured or disabled after a write failure). -/
structure FileLog where
  logFile : Option String
deriving DecidableEq

/-- Source: `isEnabled = () => typeof this.logFile === "string"`. -/
def FileLog.isEnabled (l : FileLog) : Bool :=
  match l.logFile with
  | some _ => true
  | none => false

/-- Source: `writeLine`.  If `logFile` is not a string, return.  Otherwise try
to append the line; on an append failure (`appendOk = false`, standing for
`fs.appendFileSync` throwing) clear `logFile`.  The returned list holds the
text appended to the log file on this call (the timestamp decoration and the
trailing newline added inside the append call are abstracted away).
The function is total: a write failure never raises past `writeLine`. -/
def FileLog.writeLine (l : FileLog) (appendOk : Bool) (text : String) :
    FileLog × List String :=
  match l.logFile with
  | none => (l, [])
  | some _ => if appendOk then (l, [text]) else (⟨none⟩, [])

/-- A sequence of `writeLine` calls, each with its own append outcome,
threading the log state and concatenating the appended lines. -/
def writeLines (l : FileLog) : List (Bool × String) → FileLog × List String
  | [] => (l, [])
  | call :: rest =>
      let step := l.writeLine call.1 call.2
      let tail := writeLines step.1 rest
      (tail.1, step.2 ++ tail.2)

/-! ## indent helper (source lines 248-250) -/

/-- The four-space indentation inserted by `indent`. -/
def indentSpaces : List Char := [' ', ' ', ' ', ' ']

/-- The effect of `str.replace(/\r?\n/, repl)`: a NON-global replacement of
the leftmost occurrence of `\r\n` or `\n` by `repl`. -/
def replaceFirstNewline (repl : List Char) : List Char → List Char
  | [] => []
  | c :: rest =>
      if c = '\n' then repl ++ rest
      else if c = '\r' ∧ rest.head? = some '\n' then repl ++ rest.tail
      else c :: replaceFirstNewline repl rest

/-- Source: `indent(newline, str)` returns
newline + four spaces + str with its first `\r?\n` replaced by
newline + four spaces. -/
def indentChars (newline : List Char) (str : List Char) : List Char :=
  newline ++ indentSpaces ++ replaceFirstNewline (newline ++ indentSpaces) str

/-- String-level wrapper of `indentChars`. -/
def indent (newline : String) (str : String) : String :=
  String.mk (indentChars newline.data str.data)

/-! ## npm path resolution and quoting (source lines 32-39 and 92-95) -/

/-- Source helper `stringContains(s, substring)`: substring containment,
here on the underlying character lists. -/
def hasSubstring : List Char → List Char → Bool
  | [], sub => sub.isEmpty
  | c :: rest, sub => sub.isPrefixOf (c :: rest) || hasSubstring rest sub

/-- Source: `stringContains`. -/
def stringContains (s sub : String) : Bool :=
  hasSubstring s.data sub.data

/-- The constructor step at source lines 92-95: if the npm path contains a
space and its first character is not a double quote, wrap it in double
quotes; otherwise leave it unchanged. -/
def ensureNpmPathQuoted (npmPath : String) : String :=
  if stringContains npmPath " " = true ∧ npmPath.data.head? ≠ some '"' then
    "\"" ++ npmPath ++ "\""
  else
    npmPath

/-- Source: `getDefaultNPMLocation(processName)` — when the process basename
starts with "node", the sibling npm path (already quoted); otherwise the bare
name "npm".  `dir` stands for `path.dirname(process.argv[0])` joined with
"npm" and `base` for `path.basename(processName)`. -/
def getDefaultNPMLocation (dir : String) (base : String) : String :=
  if ("node".data).isPrefixOf base.data then "\"" ++ dir ++ "\"" else "npm"

/-! ## Helper lemmas for the Logger -/

theorem writeLine_false (l : FileLog) (text : String) :
    l.writeLine false text = (⟨none⟩, []) := by
  cases l with
  | mk lf => cases lf <;> rfl

theorem writeLines_disabled (calls : List (Bool × String)) :
    writeLines ⟨none⟩ calls = (⟨none⟩, []) := by
  induction calls with
  | nil => rfl
  | cons c rest ih => simp [writeLines, FileLog.writeLine, ih]

/-- C9: a write failure never raises past `writeLine` (the function is total
and is applied here at an arbitrary failing call), and after the first write
failure the Logger is permanently disabled: the final state reports
`isEnabled = false` no matter what calls follow, and no line after the
failing call is ever appended (the total output equals the output of the
calls before the failure). -/
theorem fileLog_disables_after_first_failure (l : FileLog)
    (calls : List (Bool × String)) (text : String)
    (rest : List (Bool × String)) :
    (writeLines l (calls ++ (false, text) :: rest)).1.isEnabled = false
    ∧ (writeLines l (calls ++ (false, text) :: rest)).2
        = (writeLines l calls).2 := by
  induction calls generalizing l with
  | nil =>
      simp [writeLines, writeLine_false, writeLines_disabled,
        FileLog.isEnabled]
  | cons c cs ih =>
      simp only [List.cons_append, writeLines]
      rcases ih (l.writeLine c.1 c.2).1 with ⟨h1, h2⟩
      exact ⟨h1, congrArg (fun t => (l.writeLine c.1 c.2).2 ++ t) h2⟩

/-! ## Lemmas for indent -/

theorem replaceFirstNewline_cons (repl : List Char) (c : Char)
    (rest : List Char) :
    replaceFirstNewline repl (c :: rest)
      = if c = '\n' then repl ++ rest
        else if c = '\r' ∧ rest.head? = some '\n' then repl ++ rest.tail
        else c :: replaceFirstNewline repl rest := rfl

theorem replaceFirstNewline_append (repl : List Char) (a b : List Char)
    (h1 : '\n' ∉ a) (h2 : a.getLast? ≠ some '\r') :
    replaceFirstNewline repl (a ++ '\n' :: b) = a ++ repl ++ b := by
  induction a with
  | nil => simp [replaceFirstNewline]
  | cons c a ih =>
      have hc : c ≠ '\n' := by
        intro h
        exact h1 (h ▸ List.mem_cons_self c a)
      have h1' : '\n' ∉ a := fun h => h1 (List.mem_cons_of_mem c h)
      cases a with
      | nil =>
          have hcr : c ≠ '\r' := by
            intro h
            subst h
            exact h2 (by simp)
          simp [replaceFirstNewline_cons, hc, hcr]
      | cons a0 a' =>
          have ha0 : a0 ≠ '\n' := by
            intro h
            exact h1' (h ▸ List.mem_cons_self a0 a')
          have h2' : (a0 :: a').getLast? ≠ some '\r' := by
            rw [List.getLast?_cons_cons] at h2
            exact h2
          have hcond : ¬(c = '\r' ∧ ((a0 :: a') ++ '\n' :: b).head? = some '\n') := by
            rintro ⟨-, hh⟩
            simp only [List.cons_append, List.head?_cons,
              Option.some.injEq] at hh
            exact ha0 hh
          rw [List.cons_append, replaceFirstNewline_cons, if_neg hc,
            if_neg hcond, ih h1' h2']
          simp

/-- C10: the indent helper inserts the indentation prefix only after the
first newline of the text (the replacement is not global): for any text of
the form `a ++ "\n" ++ b` whose first line `a` contains no newline (and does
not end in a carriage return, so the first `\r?\n` match is exactly this
newline), the first following line is indented and the remainder `b` —
which may itself contain any number of further newlines — is appended
verbatim, unindented. -/
theorem indent_replaces_only_first_newline (newline : List Char)
    (a b : List Char) (h1 : '\n' ∉ a) (h2 : a.getLast? ≠ some '\r') :
    indentChars newline (a ++ '\n' :: b)
      = newline ++ indentSpaces ++ a ++ (newline ++ indentSpaces) ++ b := by
  unfold indentChars
  rw [replaceFirstNewline_append _ _ _ h1 h2]
  simp

/-- C10 witness: on the three-line text "line1\nline2\nline3" with newline
"\n", only the line after the first newline gets the indentation prefix;
"line2\nline3" is appended verbatim. -/
theorem indent_replaces_only_first_newline_witness :
    ('\n' ∉ "line1".data)
    ∧ indentChars ['\n'] ("line1".data ++ '\n' :: "line2\nline3".data)
        = ['\n'] ++ indentSpaces ++ "line1".data
            ++ (['\n'] ++ indentSpaces) ++ "line2\nline3".data :=
  ⟨by decide,
   indent_replaces_only_first_newline ['\n'] "line1".data "line2\nline3".data
     (by decide) (by decide)⟩

/-- C8: quoting of the resolved npm executable path — a path containing a
space whose first character is not a double quote gets wrapped in double
quotes; a path that is already quoted (first character a double quote) or
that contains no space is passed through unchanged. -/
theorem npmPath_quoting (s : String) :
    (stringContains s " " = true → s.data.head? ≠ some '"' →
        ensureNpmPathQuoted s = "\"" ++ s ++ "\"")
    ∧ (s.data.head? = some '"' → ensureNpmPathQuoted s = s)
    ∧ (stringContains s " " = false → ensureNpmPathQuoted s = s) := by
  refine ⟨fun h1 h2 => ?_, fun h => ?_, fun h => ?_⟩
  · simp [ensureNpmPathQuoted, h1, h2]
  · simp [ensureNpmPathQuoted, h]
  · simp [ensureNpmPathQuoted, h]

/-- C8 witness: the spaced unquoted path C:\Program Files\npm gets wrapped
in quotes; the already-quoted form and the space-free path "npm" are passed
through unchanged. -/
theorem npmPath_quoting_witness :
    ensureNpmPathQuoted "C:\\Program Files\\npm"
        = "\"" ++ "C:\\Program Files\\npm" ++ "\""
    ∧ ensureNpmPathQuoted "\"C:\\Program Files\\npm\""
        = "\"C:\\Program Files\\npm\""
    ∧ ensureNpmPathQuoted "npm" = "npm" :=
  ⟨(npmPath_quoting "C:\\Program Files\\npm").1 (by decide) (by decide),
   (npmPath_quoting "\"C:\\Program Files\\npm\"").2.1 (by decide),
   (npmPath_quoting "npm").2.2 (by decide)⟩

/-! ## Command Executor: execFileSyncAndLog (source lines 200-216) -/

/-- A single invocation of the external package-manager executable:
file, argument list and working directory. -/
structure ExecCall where
  file : String
  args : List String
  cwd : Path
deriving DecidableEq

/-- Outcome of one external-command execution: normal completion with
captured stdout, or an exception (non-zero exit or spawn failure) carrying
captured stdout and stderr. -/
inductive ExecOutcome where
  | success (stdout : List Char)
  | failure (stdout : List Char) (stderr : List Char)
deriving DecidableEq

/-- The boolean classification of an execution outcome
(execFileSyncAndLog returns true in case of error). -/
def execFailed : ExecOutcome → Bool
  | .success _ => false
  | .failure _ _ => true

/-- Source: `execFileSyncAndLog(file, args, options)`.  `outcome` stands for
the behaviour of the external `child_process.execFileSync` call; `appendOk`
is the append oracle handed to each `writeLine` of this invocation;
`newLine` is `sys.newLine`.  Returns the error flag, the updated log state
and the lines appended to the log.  The function is total: an execution
failure never propagates past this boundary. -/
def execFileSyncAndLog (appendOk : Bool) (newLine : String)
    (outcome : ExecOutcome) (log : FileLog) (file : String)
    (args : List String) (cwd : Path) : Bool × FileLog × List String :=
  let step1 :=
    if log.isEnabled then
      log.writeLine appendOk ("Exec: " ++ file ++ " " ++ String.intercalate " " args)
    else (log, [])
  match outcome with
  | .success stdout =>
      let step2 :=
        if step1.1.isEnabled then
          step1.1.writeLine appendOk
            ("    Succeeded. stdout:" ++ indent newLine (String.mk stdout))
        else (step1.1, [])
      (false, step2.1, step1.2 ++ step2.2)
  | .failure stdout stderr =>
      let step2 :=
        step1.1.writeLine appendOk
          ("    Failed. stdout:" ++ indent newLine (String.mk stdout)
            ++ newLine ++ "    stderr:" ++ indent newLine (String.mk stderr))
      (true, step2.1, step1.2 ++ step2.2)

/-- C4: the Command Executor returns failed = false exactly when the
external executable completes successfully and failed = true when it exits
non-zero or cannot be spawned (both abstracted by the failure outcome); no
exception propagates past the boundary (the embedded function is total over
all outcomes), and when the Logger is enabled and its appends succeed the
log receives the exec line plus the captured output of the command. -/
theorem execFileSyncAndLog_classifies_and_logs (appendOk : Bool)
    (newLine : String) (outcome : ExecOutcome) (log : FileLog)
    (file : String) (args : List String) (cwd : Path) :
    (execFileSyncAndLog appendOk newLine outcome log file args cwd).1
      = execFailed outcome
    ∧ (log.isEnabled = true → appendOk = true →
        (execFileSyncAndLog appendOk newLine outcome log file args cwd).2.2
          = match outcome with
            | .success stdout =>
                ["Exec: " ++ file ++ " " ++ String.intercalate " " args,
                 "    Succeeded. stdout:" ++ indent newLine (String.mk stdout)]
            | .failure stdout stderr =>
                ["Exec: " ++ file ++ " " ++ String.intercalate " " args,
                 "    Failed. stdout:" ++ indent newLine (String.mk stdout)
                   ++ newLine ++ "    stderr:"
                   ++ indent newLine (String.mk stderr)]) := by
  constructor
  · cases outcome <;> simp [execFileSyncAndLog, execFailed]
  · intro hen hok
    subst hok
    obtain ⟨lf⟩ := log
    cases lf with
    | none => simp [FileLog.isEnabled] at hen
    | some f =>
        cases outcome <;>
          simp [execFileSyncAndLog, FileLog.isEnabled, FileLog.writeLine]

/-- C4 witness: with an enabled log and succeeding appends, a successful
execution yields failed = false, and a failing execution with stdout "o"
and stderr "e" yields failed = true with the captured output logged. -/
theorem execFileSyncAndLog_classifies_and_logs_witness :
    (execFileSyncAndLog true "\n" (.success "ok".data) ⟨some "log"⟩
        "npm" ["install"] []).1 = execFailed (.success "ok".data)
    ∧ (execFileSyncAndLog true "\n" (.failure "o".data "e".data)
        ⟨some "log"⟩ "npm" ["install"] []).2.2
        = ["Exec: npm install",
           "    Failed. stdout:\n    o\n    stderr:\n    e"] :=
  ⟨(execFileSyncAndLog_classifies_and_logs true "\n" (.success "ok".data)
      ⟨some "log"⟩ "npm" ["install"] []).1,
   ((execFileSyncAndLog_classifies_and_logs true "\n"
      (.failure "o".data "e".data) ⟨some "log"⟩ "npm" ["install"] []).2
      rfl rfl).trans (by decide)⟩

/-! ## Registry Loader: loadTypesRegistryFile (source lines 45-62) -/

/-- The message and stack of a caught JavaScript error. -/
structure JsError where
  message : String
  stack : String
deriving DecidableEq

/-- Source: `loadTypesRegistryFile(typesRegistryFilePath, host, log)`.
`parse` stands for `JSON.parse` followed by the `.entries` projection
(returning the entries mapping of a well-formed registry file, or the
thrown error); `fileExists` and `readFile` are the host's file-system
primitives; `logEnabled` is `log.isEnabled()`.  Returns the mapping and the
lines written to the log.  The function is total: no error propagates to
the caller. -/
def loadTypesRegistryFile (parse : String → Except JsError Entries)
    (fileExists : String → Bool) (readFile : String → String)
    (logEnabled : Bool) (typesRegistryFilePath : String) :
    Entries × List String :=
  if fileExists typesRegistryFilePath = false then
    ([],
     if logEnabled then
       ["Types registry file \x27" ++ typesRegistryFilePath
         ++ "\x27 does not exist"]
     else [])
  else
    match parse (readFile typesRegistryFilePath) with
    | .ok entries => (entries, [])
    | .error e =>
        ([],
         if logEnabled then
           ["Error when loading types registry file \x27"
             ++ typesRegistryFilePath ++ "\x27: " ++ e.message ++ ", "
             ++ e.stack]
         else [])

/-- C6: the Registry Loader returns the entries mapping when the file
exists and its content parses as a registry object; returns the empty
mapping when the file does not exist; returns the empty mapping and logs a
line carrying the error's message and stack when the content is malformed;
and never propagates an error to its caller (the embedded function is
total over all parse outcomes). -/
theorem loadTypesRegistryFile_behavior (parse : String → Except JsError Entries)
    (fileExists : String → Bool) (readFile : String → String)
    (logEnabled : Bool) (p : String) :
    (fileExists p = false →
        loadTypesRegistryFile parse fileExists readFile logEnabled p
          = ([],
             if logEnabled then
               ["Types registry file \x27" ++ p ++ "\x27 does not exist"]
             else []))
    ∧ (∀ entries, fileExists p = true → parse (readFile p) = .ok entries →
        loadTypesRegistryFile parse fileExists readFile logEnabled p
          = (entries, []))
    ∧ (∀ e, fileExists p = true → parse (readFile p) = .error e →
        loadTypesRegistryFile parse fileExists readFile logEnabled p
          = ([],
             if logEnabled then
               ["Error when loading types registry file \x27" ++ p
                 ++ "\x27: " ++ e.message ++ ", " ++ e.stack]
             else [])) := by
  refine ⟨fun h => ?_, fun entries h hp => ?_, fun e h hp => ?_⟩
  · simp [loadTypesRegistryFile, h]
  · simp [loadTypesRegistryFile, h, hp]
  · simp [loadTypesRegistryFile, h, hp]

/-- The registry-file content of the C6 witness, the example of the spec. -/
def registryFileContentW : String :=
  "\x7b\"entries\":\x7b\"lodash\":\x7b\"latest\":\"4.0\"\x7d\x7d\x7d"

/-- A concrete stand-in for JSON.parse plus the entries projection, defined
only far enough for the witness: it recognises the example registry file
and rejects everything else with a syntax error. -/
def parseW : String → Except JsError Entries := fun s =>
  if s = registryFileContentW then
    Except.ok [("lodash", [("latest", "4.0")])]
  else
    Except.error ⟨"Unexpected token", "SyntaxError: Unexpected token"⟩

/-- C6 witness: on the example file the loader returns the mapping
lodash to (latest, 4.0); on a missing file it returns the empty mapping and
logs; on malformed content it returns the empty mapping and logs the
error's message and stack. -/
theorem loadTypesRegistryFile_behavior_witness :
    loadTypesRegistryFile parseW (fun _ => true) (fun _ => registryFileContentW)
        true "/cache/index.json" = ([("lodash", [("latest", "4.0")])], [])
    ∧ loadTypesRegistryFile parseW (fun _ => false)
        (fun _ => registryFileContentW) true "/cache/index.json"
        = ([], ["Types registry file \x27/cache/index.json\x27 does not exist"])
    ∧ loadTypesRegistryFile parseW (fun _ => true) (fun _ => "not json")
        true "/cache/index.json"
        = ([], ["Error when loading types registry file \x27/cache/index.json\x27: Unexpected token, SyntaxError: Unexpected token"]) :=
  ⟨(loadTypesRegistryFile_behavior parseW (fun _ => true)
      (fun _ => registryFileContentW) true "/cache/index.json").2.1
      [("lodash", [("latest", "4.0")])] rfl (by simp [parseW]),
   (loadTypesRegistryFile_behavior parseW (fun _ => false)
      (fun _ => registryFileContentW) true "/cache/index.json").1 rfl,
   (loadTypesRegistryFile_behavior parseW (fun _ => true)
      (fun _ => "not json") true "/cache/index.json").2.2
      ⟨"Unexpected token", "SyntaxError: Unexpected token"⟩ rfl
      (by simp only [parseW]; rw [if_neg (by decide)])⟩

/-! ## Project Root Resolver: getDirectoryOfPackageJson (source lines 219-225) -/

/-- Helper for the ancestor enumeration, on reversed component lists:
the chain of suffixes down to the empty list. -/
def ancestorsRev : List String → List (List String)
  | [] => [[]]
  | c :: rest => (c :: rest) :: ancestorsRev rest

/-- The directories visited by the source's `forEachAncestorDirectory`
while-loop, in visiting order: the directory itself, its parent, its
grandparent, ..., down to the root (the empty path). -/
def ancestors (dir : Path) : List Path :=
  (ancestorsRev dir.reverse).map List.reverse

/-- Source: `forEachAncestorDirectory(directory, callback)` — apply the
callback to the directory and each of its ancestors in turn, returning
the first non-absent result, or absent when the chain (root included) is
exhausted. -/
def forEachAncestorDirectory (dir : Path) (callback : Path → Option Path) :
    Option Path :=
  (ancestors dir).findSome? callback

/-- Source: `getDirectoryOfPackageJson(fileName, host)` — walk the ancestor
directories of the directory containing `fileName`, returning the first one
that contains a package.json file. -/
def getDirectoryOfPackageJson (fileExists : Path → Bool) (fileName : Path) :
    Option Path :=
  forEachAncestorDirectory fileName.dropLast
    (fun directory =>
      if fileExists (directory ++ ["package.json"]) then some directory
      else none)

theorem mem_ancestorsRev_length_le {l d : List String}
    (h : d ∈ ancestorsRev l) : d.length ≤ l.length := by
  induction l with
  | nil =>
      simp [ancestorsRev] at h
      simp [h]
  | cons c rest ih =>
      rcases List.mem_cons.mp h with h | h
      · simp [h]
      · exact (ih h).trans (Nat.le_succ _)

theorem findSome?_guard_eq_find? (p : Path → Bool) (l : List Path) :
    l.findSome? (fun d => if p d then some d else none) = l.find? p := by
  induction l with
  | nil => rfl
  | cons a l ih =>
      by_cases h : p a
      · simp [List.findSome?_cons, List.find?_cons, h]
      · simp [List.findSome?_cons, List.find?_cons, h, ih]

theorem ancestors_find?_first_longest (p : Path → Bool) (l : List String)
    (d : Path) (h : ((ancestorsRev l).map List.reverse).find? p = some d) :
    p d = true
    ∧ d ∈ (ancestorsRev l).map List.reverse
    ∧ ∀ e ∈ (ancestorsRev l).map List.reverse,
        d.length < e.length → p e = false := by
  induction l with
  | nil =>
      simp only [ancestorsRev, List.map_cons, List.map_nil] at h ⊢
      rcases List.find?_cons_eq_some.mp h with ⟨hp, hd⟩ | ⟨-, hrest⟩
      · refine ⟨hd ▸ hp, by simp [hd.symm], ?_⟩
        intro e he
        simp at he
        simp [he, hd.symm]
      · simp [List.find?] at hrest
  | cons c rest ih =>
      simp only [ancestorsRev, List.map_cons] at h ⊢
      rcases List.find?_cons_eq_some.mp h with ⟨hp, hd⟩ | ⟨hnp, hrest⟩
      · refine ⟨hd ▸ hp, by simp [hd.symm], ?_⟩
        intro e he hlen
        exfalso
        rcases List.mem_cons.mp he with he | he
        · subst he
          subst hd
          exact Nat.lt_irrefl _ hlen
        · rcases List.mem_map.mp he with ⟨e0, he0, hee⟩
          have : e.length ≤ rest.length + 1 := by
            have := mem_ancestorsRev_length_le he0
            calc e.length = e0.length := by rw [hee.symm]; simp
            _ ≤ rest.length := this
            _ ≤ rest.length + 1 := Nat.le_succ _
          have hd' : d.length = rest.length + 1 := by
            rw [hd.symm]
            simp
          omega
      · rcases ih hrest with ⟨h1, h2, h3⟩
        refine ⟨h1, List.mem_cons_of_mem _ h2, ?_⟩
        intro e he hlen
        rcases List.mem_cons.mp he with he | he
        · subst he
          simpa using hnp
        · exact h3 e he hlen

theorem getDirectoryOfPackageJson_eq_find? (fileExists : Path → Bool)
    (fileName : Path) :
    getDirectoryOfPackageJson fileExists fileName
      = (ancestors fileName.dropLast).find?
          (fun d => fileExists (d ++ ["package.json"])) := by
  unfold getDirectoryOfPackageJson forEachAncestorDirectory
  exact findSome?_guard_eq_find? _ _

theorem getDirectoryOfPackageJson_none_iff (fileExists : Path → Bool)
    (fileName : Path) :
    getDirectoryOfPackageJson fileExists fileName = none ↔
      ∀ e ∈ ancestors fileName.dropLast,
        fileExists (e ++ ["package.json"]) = false := by
  rw [getDirectoryOfPackageJson_eq_find?, List.find?_eq_none]
  constructor
  · intro h e he
    have := h e he
    simpa using this
  · intro h e he
    simp [h e he]

/-- C7: the Project Root Resolver walks the ancestor chain of the directory
containing the file, from that directory upward to the filesystem root:
whenever it returns a directory, that directory is an ancestor containing
package.json and every strictly nearer ancestor (a longer path in the
chain) does not contain package.json — so the returned directory is the
nearest match; and it returns absent exactly when no ancestor up to the
root contains package.json. -/
theorem getDirectoryOfPackageJson_nearest (fileExists : Path → Bool)
    (fileName : Path) :
    (∀ d, getDirectoryOfPackageJson fileExists fileName = some d →
        fileExists (d ++ ["package.json"]) = true
        ∧ d ∈ ancestors fileName.dropLast
        ∧ ∀ e ∈ ancestors fileName.dropLast,
            d.length < e.length → fileExists (e ++ ["package.json"]) = false)
    ∧ (getDirectoryOfPackageJson fileExists fileName = none ↔
        ∀ e ∈ ancestors fileName.dropLast,
          fileExists (e ++ ["package.json"]) = false) := by
  constructor
  · intro d hd
    rw [getDirectoryOfPackageJson_eq_find?] at hd
    exact ancestors_find?_first_longest _ _ _ hd
  · exact getDirectoryOfPackageJson_none_iff fileExists fileName

/-- C7 witness: with a package.json exactly at /a/b, resolving from the
file /a/b/c/file.ts returns /a/b (an ancestor that contains the manifest),
and with no manifest anywhere the resolver returns absent. -/
theorem getDirectoryOfPackageJson_nearest_witness :
    (fun q : Path => q = ["a", "b", "package.json"] : Path → Bool)
        (["a", "b"] ++ ["package.json"]) = true
    ∧ ["a", "b"] ∈ ancestors (["a", "b", "c", "file.ts"] : Path).dropLast
    ∧ getDirectoryOfPackageJson (fun _ => false)
        ["a", "b", "c", "file.ts"] = none :=
  ⟨((getDirectoryOfPackageJson_nearest
      (fun q : Path => q = ["a", "b", "package.json"])
      ["a", "b", "c", "file.ts"]).1 ["a", "b"] (by decide)).1,
   ((getDirectoryOfPackageJson_nearest
      (fun q : Path => q = ["a", "b", "package.json"])
      ["a", "b", "c", "file.ts"]).1 ["a", "b"] (by decide)).2.1,
   (getDirectoryOfPackageJson_nearest (fun _ => false)
      ["a", "b", "c", "file.ts"]).2.mpr (fun e _ => rfl)⟩

/-! ## Request Dispatcher: NodeTypingsInstaller.listen (source lines 127-175)

The inbound requests and outbound responses of the channel, the installer
state, and the per-message handler.  External collaborators (the file
system, the package manager, the module inspector) are an environment of
oracles; the exec invocations performed while handling are returned as an
explicit list. -/

/-- The tagged request union (TypingInstallerRequestUnion), with the fields
the dispatcher reads. -/
inductive Request where
  | discover
  | closeProject
  | typesRegistry
  | installPackage (fileName : Path) (packageName : String)
      (projectName : String) (projectRootPath : Option Path)
  | inspectValue (fileNameToRequire : String)
deriving DecidableEq

/-- The tagged response union (TypingInstallerResponseUnion) as far as the
dispatcher constructs it; the payloads of the delegated discover and
closeProject responses are outside this source unit and carried opaquely. -/
inductive Response where
  | initializationFailed (message : String)
  | discoverResponse
  | closeProjectResponse
  | typesRegistryResponse (typesRegistry : Entries)
  | packageInstalled (projectName : String) (success : Bool) (message : String)
  | valueInspected (result : String)
deriving DecidableEq

/-- The external collaborators: the host file system, the package-manager
executable (an outcome per invocation), the module inspector, and the
resolved npm path and TypeScript version of the constructor. -/
structure Env where
  fileExists : Path → Bool
  execOutcome : ExecCall → ExecOutcome
  inspectModule : String → String
  npmPath : String
  version : String

/-- The mutable state of the NodeTypingsInstaller that the dispatcher
touches: the pending initialization failure (its message) and the
types registry loaded at construction. -/
structure InstallerState where
  delayedInitializationError : Option String
  typesRegistry : Entries
deriving DecidableEq

/-- Modelled from the spec: `installNpmPackages` lives in the shared
typings-installer core, which is not part of this source unit.  Per the
spec (section 4.5 and section 6), it invokes the package manager's install
sub-command with the skip-install-scripts flag exactly once, with all
package names batched into that single invocation. -/
def installNpmPackages (npmPath : String) (tsVersion : String)
    (packageNames : List String)
    (install : String → List String → Bool × List ExecCall) :
    Bool × List ExecCall :=
  install npmPath ("install" :: "--ignore-scripts" :: packageNames)

/-- Source: `installWorker(requestId, packageNames, cwd, onRequestCompleted)`
— run `installNpmPackages` through the Command Executor with `cwd` as the
working directory and hand the negated error flag to the completion
callback.  Returns the callback's result and the exec invocations made. -/
def installWorker (env : Env) (requestId : Int) (packageNames : List String)
    (cwd : Path) (onRequestCompleted : Bool → Response) :
    Response × List ExecCall :=
  let r := installNpmPackages env.npmPath env.version packageNames
    (fun file args =>
      (execFailed (env.execOutcome ⟨file, args, cwd⟩), [⟨file, args, cwd⟩]))
  (onRequestCompleted (!r.1), r.2)

/-- Modelled from the spec: `this.install(req)` (the discover handler of the
shared core, not in this source unit) delegates to the typings-resolution
collaborator and relays exactly one response (section 4.6 and the section 3
invariant). -/
def discoverHandler : Response := Response.discoverResponse

/-- Modelled from the spec: `this.closeProject(req)` (shared core, not in
this source unit) delegates to the project-lifecycle collaborator and
relays exactly one response (section 4.6 and the section 3 invariant). -/
def closeProjectHandler : Response := Response.closeProjectResponse

/-- The JavaScript `a || b` on the resolved working directory: the empty
string (here the empty path) is falsy and falls through to `b`. -/
def jsOr (a b : Option Path) : Option Path :=
  match a with
  | some d => if d = [] then b else some d
  | none => b

/-- The body of the `switch (req.kind)` statement of `listen`: one request,
handled to completion, yielding exactly the one response the handler sends
plus the exec invocations it makes. -/
def handleRequest (env : Env) (registry : Entries) :
    Request → Response × List ExecCall
  | .discover => (discoverHandler, [])
  | .closeProject => (closeProjectHandler, [])
  | .typesRegistry => (Response.typesRegistryResponse registry, [])
  | .installPackage fileName packageName projectName projectRootPath =>
      match jsOr (getDirectoryOfPackageJson env.fileExists fileName)
          projectRootPath with
      | some cwd =>
          installWorker env (-1) [packageName] cwd (fun success =>
            Response.packageInstalled projectName success
              (if success then "Package " ++ packageName ++ " installed."
               else "There was an error installing " ++ packageName ++ "."))
      | none =>
          (Response.packageInstalled projectName false
            "Could not determine a project root path.", [])
  | .inspectValue fileNameToRequire =>
      (Response.valueInspected (env.inspectModule fileNameToRequire), [])

/-- The `process.on("message", ...)` callback of `listen`: deliver the
pending initialization failure first if present (clearing it), then handle
the request. -/
def handleMessage (env : Env) (st : InstallerState) (req : Request) :
    InstallerState × List Response × List ExecCall :=
  match st.delayedInitializationError with
  | some msg =>
      ({ st with delayedInitializationError := none },
       Response.initializationFailed msg
         :: [(handleRequest env st.typesRegistry req).1],
       (handleRequest env st.typesRegistry req).2)
  | none =>
      (st, [(handleRequest env st.typesRegistry req).1],
       (handleRequest env st.typesRegistry req).2)

/-- The dispatcher over a whole inbound request sequence: handle one
message at a time, strictly sequentially, concatenating the outbound
responses and the exec invocations in order. -/
def listen (env : Env) (st : InstallerState) :
    List Request → InstallerState × List Response × List ExecCall
  | [] => (st, [], [])
  | req :: rest =>
      let step := handleMessage env st req
      let tail := listen env step.1 rest
      (tail.1, step.2.1 ++ tail.2.1, step.2.2 ++ tail.2.2)

/-- Recognises the out-of-band initialization-failure response. -/
def isInitFailedResponse : Response → Bool
  | .initializationFailed _ => true
  | _ => false

theorem handleRequest_not_initFailed (env : Env) (registry : Entries)
    (req : Request) :
    isInitFailedResponse (handleRequest env registry req).1 = false := by
  cases req with
  | discover => rfl
  | closeProject => rfl
  | typesRegistry => rfl
  | installPackage fileName packageName projectName projectRootPath =>
      simp only [handleRequest]
      cases jsOr (getDirectoryOfPackageJson env.fileExists fileName)
          projectRootPath with
      | none => rfl
      | some cwd => rfl
  | inspectValue f => rfl

theorem listen_steady (env : Env) (st : InstallerState)
    (reqs : List Request) (h : st.delayedInitializationError = none) :
    listen env st reqs
      = (st, reqs.map (fun r => (handleRequest env st.typesRegistry r).1),
         (reqs.map (fun r => (handleRequest env st.typesRegistry r).2)).flatten) := by
  induction reqs with
  | nil => simp [listen]
  | cons req rest ih =>
      simp only [listen, handleMessage, h, ih, List.map_cons]
      simp [List.flatten]

theorem listen_pending (env : Env) (msg : String) (reg : Entries)
    (req : Request) (rest : List Request) :
    listen env ⟨some msg, reg⟩ (req :: rest)
      = (⟨none, reg⟩,
         Response.initializationFailed msg
           :: (req :: rest).map (fun r => (handleRequest env reg r).1),
         ((req :: rest).map (fun r => (handleRequest env reg r).2)).flatten) := by
  have hsteady := listen_steady env ⟨none, reg⟩ rest rfl
  simp only [listen, handleMessage, hsteady, List.map_cons]
  simp [List.flatten]

/-- A concrete environment for witnesses and counterexamples: no file
exists, every exec call succeeds with empty output, the module inspector
returns the empty result. -/
def envW : Env :=
  ⟨fun _ => false, fun _ => ExecOutcome.success [], fun _ => "", "npm", "3.0"⟩

/-- C1 counterexample: with a pending initialization failure and an empty
request sequence, zero responses go out, so the total is NOT the number of
requests plus one — the stashed failure is only delivered together with the
first request. -/
theorem listen_response_count_counterexample :
    ¬ ((listen envW ⟨some "registry update failed", []⟩
          ([] : List Request)).2.1.length
        = ([] : List Request).length
          + (if (some "registry update failed" : Option String).isSome
             then 1 else 0)) := by
  decide

/-- C1 (amended): over any request sequence the dispatcher sends exactly
one response per request, in request-arrival order (the outbound sequence
is the per-request responses in order, prefixed by the initialization
failure when one was pending), and the total number of responses equals the
number of requests plus one if a pending initialization failure existed AND
at least one request arrived, else plus zero. -/
theorem listen_one_response_per_request (env : Env) (st : InstallerState)
    (reqs : List Request) :
    (listen env st reqs).2.1.length
      = reqs.length
        + (if st.delayedInitializationError.isSome ∧ reqs ≠ [] then 1 else 0)
    ∧ (st.delayedInitializationError = none →
        (listen env st reqs).2.1
          = reqs.map (fun r => (handleRequest env st.typesRegistry r).1))
    ∧ (∀ msg, st.delayedInitializationError = some msg → reqs ≠ [] →
        (listen env st reqs).2.1
          = Response.initializationFailed msg
              :: reqs.map (fun r => (handleRequest env st.typesRegistry r).1)) := by
  obtain ⟨delayed, reg⟩ := st
  cases delayed with
  | none =>
      have h := listen_steady env ⟨none, reg⟩ reqs rfl
      refine ⟨by simp [h], fun _ => by simp [h], fun msg hmsg => ?_⟩
      simp at hmsg
  | some msg0 =>
      cases reqs with
      | nil =>
          refine ⟨by simp [listen], fun hc => ?_, fun msg hmsg hc => ?_⟩
          · simp at hc
          · exact absurd rfl hc
      | cons req rest =>
          have h := listen_pending env msg0 reg req rest
          refine ⟨?_, fun hc => ?_, fun msg hmsg _ => ?_⟩
          · simp [h]
          · simp at hc
          · rcases Option.some.inj hmsg with rfl
            simp [h]

/-- C1 witness: with pending failure "boom" and the single request
discover, the outbound channel carries the initialization failure followed
by the one response to the request. -/
theorem listen_one_response_per_request_witness :
    (listen envW ⟨some "boom", []⟩ [Request.discover]).2.1
      = [Response.initializationFailed "boom", Response.discoverResponse] :=
  ((listen_one_response_per_request envW ⟨some "boom", []⟩
      [Request.discover]).2.2 "boom" rfl (by decide)).trans (by decide)

/-- C2: when a pending initialization failure (set during construction) is
present, the initializationFailed response is the FIRST message on the
outbound channel, it appears exactly once no matter how many requests
follow, and the pending value is cleared by the delivery; when no pending
failure is present (in particular after the clearing) no initializationFailed
response is ever produced and the pending value stays permanently absent. -/
theorem initializationFailure_once_first_then_cleared (env : Env)
    (msg : String) (reg : Entries) (req : Request) (rest : List Request) :
    (listen env ⟨some msg, reg⟩ (req :: rest)).2.1.head?
        = some (Response.initializationFailed msg)
    ∧ (listen env ⟨some msg, reg⟩ (req :: rest)).2.1.countP
        isInitFailedResponse = 1
    ∧ (listen env ⟨some msg, reg⟩ (req :: rest)).1.delayedInitializationError
        = none
    ∧ (∀ st : InstallerState, ∀ reqs : List Request,
        st.delayedInitializationError = none →
          (listen env st reqs).2.1.countP isInitFailedResponse = 0
          ∧ (listen env st reqs).1.delayedInitializationError = none) := by
  have h := listen_pending env msg reg req rest
  have hz : ∀ (reg' : Entries) (reqs : List Request),
      ((reqs.map (fun r => (handleRequest env reg' r).1)).countP
        isInitFailedResponse) = 0 := by
    intro reg' reqs
    rw [List.countP_eq_zero]
    intro a ha
    rcases List.mem_map.mp ha with ⟨r, -, rfl⟩
    simp [handleRequest_not_initFailed]
  refine ⟨by simp [h], ?_, by simp [h], ?_⟩
  · rw [h]
    simp only [List.countP_cons, hz, isInitFailedResponse]
    rfl
  · intro st reqs hnone
    have h2 := listen_steady env st reqs hnone
    exact ⟨by rw [h2]; exact hz _ _, by simp [h2, hnone]⟩

/-- C2 witness: with pending failure "boom" and one discover request, the
failure response comes first, exactly once, the pending value ends cleared,
and from the cleared state no initialization-failure response is produced. -/
theorem initializationFailure_once_first_then_cleared_witness :
    (listen envW ⟨some "boom", []⟩ [Request.discover]).2.1.head?
        = some (Response.initializationFailed "boom")
    ∧ (listen envW ⟨some "boom", []⟩ [Request.discover]).2.1.countP
        isInitFailedResponse = 1
    ∧ (listen envW ⟨some "boom", []⟩
        [Request.discover]).1.delayedInitializationError = none
    ∧ (listen envW ⟨none, []⟩ [Request.discover]).2.1.countP
        isInitFailedResponse = 0 :=
  ⟨(initializationFailure_once_first_then_cleared envW "boom" []
      Request.discover []).1,
   (initializationFailure_once_first_then_cleared envW "boom" []
      Request.discover []).2.1,
   (initializationFailure_once_first_then_cleared envW "boom" []
      Request.discover []).2.2.1,
   ((initializationFailure_once_first_then_cleared envW "boom" []
      Request.discover []).2.2.2 ⟨none, []⟩ [Request.discover] rfl).1⟩

/-- C3: an installPackage request whose file path has no ancestor directory
containing package.json and which supplies no project root path yields the
failure response with message "Could not determine a project root path."
and performs no exec invocation at all (neither the Install Worker nor the
Command Executor runs). -/
theorem installPackage_no_root_fails_without_exec (env : Env)
    (reg : Entries) (fileName : Path) (packageName projectName : String)
    (h : ∀ d ∈ ancestors fileName.dropLast,
        env.fileExists (d ++ ["package.json"]) = false) :
    handleRequest env reg
        (Request.installPackage fileName packageName projectName none)
      = (Response.packageInstalled projectName false
          "Could not determine a project root path.", []) := by
  have hnone : getDirectoryOfPackageJson env.fileExists fileName = none :=
    (getDirectoryOfPackageJson_none_iff env.fileExists fileName).mpr h
  simp [handleRequest, hnone, jsOr]

/-- C3 witness: under a file system with no package.json anywhere, the
request for file /a/b/c/file.ts with no root path yields the fixed failure
response and an empty exec-call list. -/
theorem installPackage_no_root_fails_without_exec_witness :
    handleRequest envW []
        (Request.installPackage ["a", "b", "c", "file.ts"] "lodash"
          "proj" none)
      = (Response.packageInstalled "proj" false
          "Could not determine a project root path.", []) :=
  installPackage_no_root_fails_without_exec envW []
    ["a", "b", "c", "file.ts"] "lodash" "proj" (fun _ _ => rfl)

/-- C5: the Install Worker performs exactly one exec invocation — the
package manager's install sub-command with the skip-install-scripts flag,
all package names batched into that single invocation, run in the given
working directory — and invokes the completion callback exactly once with
the negation of the failed flag of that invocation. -/
theorem installWorker_single_batched_invocation (env : Env)
    (requestId : Int) (packageNames : List String) (cwd : Path)
    (onRequestCompleted : Bool → Response) :
    (installWorker env requestId packageNames cwd onRequestCompleted).2
      = [⟨env.npmPath, "install" :: "--ignore-scripts" :: packageNames, cwd⟩]
    ∧ (installWorker env requestId packageNames cwd onRequestCompleted).1
      = onRequestCompleted (!execFailed (env.execOutcome
          ⟨env.npmPath, "install" :: "--ignore-scripts" :: packageNames,
            cwd⟩)) :=
  ⟨rfl, rfl⟩

end NodeTypingsInstaller
